import Mathlib

/-!
Shallow embedding of the document-section extraction engine of
src/scraper.py, function parse_emergency_data.  Text lines are Lean
strings; the Python substring test "needle in hay" becomes an executable
character-list search; the regex search for a digit run becomes
firstDigitRun; the hospital map hospital_data_map becomes an association
list kept in configuration order, and the final list comprehension that
keeps hospitals with a non-empty stats mapping becomes a filter.
-/

/-- Per-entity mapping from stat label to extracted value, in insertion
order, as a Python dict of strings. -/
abbrev Stats := List (String × String)

/-- The state of hospital_data_map: one entry per configured hospital, in
configuration order. -/
abbrev ParseState := List (String × Stats)

/-- The shape of target_sections: ordered list of hospital names, each
with its ordered list of stat labels. -/
abbrev Cfg := List (String × List String)

/-- Does the first character list occur as a leading segment of the
second?  Inner step of the substring search. -/
def startsWithChars : List Char → List Char → Bool
  | [], _ => true
  | _ :: _, [] => false
  | a :: as, b :: bs => decide (a = b) && startsWithChars as bs

/-- Does the needle occur as a contiguous run inside the hay? -/
def containsChars (needle : List Char) : List Char → Bool
  | [] => needle.isEmpty
  | c :: rest => startsWithChars needle (c :: rest) || containsChars needle rest

/-- Python substring containment: needle in hay. -/
def strContains (hay needle : String) : Bool :=
  containsChars needle.toList hay.toList

/-- First maximal run of decimal digits in a character list, as the Python
re.search of one or more digits returns match.group(0); none when the
line holds no digit. -/
def firstDigitRun : List Char → Option String
  | [] => none
  | c :: rest =>
    if c.isDigit then some (String.mk ((c :: rest).takeWhile Char.isDigit))
    else firstDigitRun rest

/-- The gate marker looked up inside each search block (scraper.py line 58). -/
def ed_marker : String := "Emergency Department"

/-- The Python slice lines[i+1 : i+20] taken at a hospital header found on
line i (scraper.py line 53): at most 19 lines, the header line excluded. -/
def search_block (lines : List String) (i : Nat) : List String :=
  (lines.drop (i + 1)).take 19

/-- Locate the first block line containing the gate marker and return the
suffix of the block from that line on (search_block[ed_start_index:]);
none when the marker is absent, as ed_start_index = -1. -/
def dropUntilMarker : List String → Option (List String)
  | [] => none
  | l :: rest =>
    if strContains l ed_marker then some (l :: rest) else dropUntilMarker rest

/-- The inner loop over ed_search_area for one stat label: the first line
containing the label AND holding a digit run yields that run; a label
line without digits is passed over, since the Python break sits under the
successful regex match only (scraper.py lines 66-75). -/
def findStat (key : String) : List String → Option String
  | [] => none
  | l :: rest =>
    if strContains l key then
      match firstDigitRun l.toList with
      | some v => some v
      | none => findStat key rest
    else findStat key rest

/-- Python dict assignment stats[key] = v: replace in place when the key
exists, append otherwise. -/
def dictInsert (st : Stats) (key v : String) : Stats :=
  match st with
  | [] => [(key, v)]
  | (k, w) :: rest =>
    if k = key then (key, v) :: rest else (k, w) :: dictInsert rest key v

/-- The loop over stats_to_find for one hospital occurrence, recording
each stat found in ed_search_area (scraper.py lines 65-75). -/
def extractOccurrence (area : List String) : List String → Stats → Stats
  | [], st => st
  | key :: keys, st =>
    extractOccurrence area keys
      (match findStat key area with
       | some v => dictInsert st key v
       | none => st)

/-- Everything done for one hospital occurrence at line i: slice the
search block, gate on the marker, then extract the stats; the state is
unchanged when the marker is absent (ed_start_index = -1). -/
def occUpdate (all : List String) (i : Nat) (keys : List String) (st : Stats) : Stats :=
  match dropUntilMarker (search_block all i) with
  | none => st
  | some area => extractOccurrence area keys st

/-- Update the entry of one hospital in hospital_data_map, leaving the
other entries alone. -/
def updateStats (m : ParseState) (name : String) (f : Stats → Stats) : ParseState :=
  match m with
  | [] => []
  | (k, st) :: rest =>
    if k = name then (k, f st) :: rest else (k, st) :: updateStats rest name f

/-- One iteration of the outer line loop (scraper.py lines 48-76): the
first configured hospital whose name occurs in the line is processed and
the hospital loop then breaks; a line matching no hospital leaves the
state unchanged. -/
def processLine (cfg : Cfg) (all : List String) (i : Nat) (line : String)
    (m : ParseState) : ParseState :=
  match cfg.find? (fun p => strContains line p.1) with
  | none => m
  | some (n, keys) => updateStats m n (occUpdate all i keys)

/-- The outer loop over enumerate(lines), carrying the absolute index. -/
def scanAux (cfg : Cfg) (all : List String) : Nat → List String → ParseState → ParseState
  | _, [], m => m
  | i, l :: rest, m => scanAux cfg all (i + 1) rest (processLine cfg all i l m)

/-- hospital_data_map as first built (scraper.py line 45): every
configured hospital with an empty stats mapping, in configuration order. -/
def initState : Cfg → ParseState
  | [] => []
  | p :: rest => (p.1, ([] : Stats)) :: initState rest

/-- The full scan: the map after the outer loop has seen every line. -/
def parseRaw (cfg : Cfg) (lines : List String) : ParseState :=
  scanAux cfg lines 0 lines (initState cfg)

/-- The engine: scan the lines, then keep only the hospitals whose stats
mapping is non-empty (scraper.py line 79). -/
def parse_emergency_data (cfg : Cfg) (lines : List String) : ParseState :=
  (parseRaw cfg lines).filter (fun r => !r.2.isEmpty)

/-- The hard-coded configuration of scraper.py lines 39-43. -/
def target_sections : Cfg :=
  [("Royal University Hospital",
      ["Patients in Department", "Waiting for Inpatient Bed"]),
   ("Saskatoon City Hospital",
      ["Patients in Department"]),
   ("Jim Pattison Children's Hospital",
      ["Patients in Department", "Waiting for Inpatient Bed"])]

/-- Lookup of one hospital entry in the state: the stats of the first
entry carrying the name, an empty mapping when absent. -/
def statsOf : ParseState → String → Stats
  | [], _ => []
  | (k, st) :: rest, name => if k = name then st else statsOf rest name

/-- The occurrence list of one hospital: the absolute indices, paired with
the configured stat labels, of every line on which this hospital is the
first configured name to match. -/
def occsK (cfg : Cfg) (name : String) : Nat → List String → List (Nat × List String)
  | _, [] => []
  | i, l :: rest =>
    match cfg.find? (fun p => strContains l p.1) with
    | some (n, keys) =>
      if n = name then (i, keys) :: occsK cfg name (i + 1) rest
      else occsK cfg name (i + 1) rest
    | none => occsK cfg name (i + 1) rest

/-! Helper lemmas about the state and the scan. -/

theorem map_fst_updateStats (m : ParseState) (n : String) (f : Stats → Stats) :
    (updateStats m n f).map Prod.fst = m.map Prod.fst := by
  induction m with
  | nil => rfl
  | cons p rest ih =>
    obtain ⟨k, st⟩ := p
    by_cases h : k = n <;> simp [updateStats, h, ih]

theorem map_fst_processLine (cfg : Cfg) (all : List String) (i : Nat) (line : String)
    (m : ParseState) :
    (processLine cfg all i line m).map Prod.fst = m.map Prod.fst := by
  cases hf : cfg.find? (fun p => strContains line p.1) with
  | none => simp [processLine, hf]
  | some p =>
    obtain ⟨n, keys⟩ := p
    simp [processLine, hf, map_fst_updateStats]

theorem map_fst_scanAux (cfg : Cfg) (all : List String) (rest : List String) (i : Nat)
    (m : ParseState) :
    (scanAux cfg all i rest m).map Prod.fst = m.map Prod.fst := by
  induction rest generalizing i m with
  | nil => rfl
  | cons l rest ih =>
    rw [scanAux, ih, map_fst_processLine]

theorem map_fst_initState (cfg : Cfg) :
    (initState cfg).map Prod.fst = cfg.map Prod.fst := by
  induction cfg with
  | nil => rfl
  | cons p rest ih => simp [initState, ih]

theorem map_fst_parseRaw (cfg : Cfg) (lines : List String) :
    (parseRaw cfg lines).map Prod.fst = cfg.map Prod.fst := by
  rw [parseRaw, map_fst_scanAux, map_fst_initState]

theorem statsOf_updateStats_ne (m : ParseState) (n name : String) (f : Stats → Stats)
    (h : n ≠ name) :
    statsOf (updateStats m n f) name = statsOf m name := by
  induction m with
  | nil => rfl
  | cons p rest ih =>
    obtain ⟨k, st⟩ := p
    by_cases hk : k = n
    · subst hk
      simp [updateStats, statsOf, h]
    · rw [show updateStats ((k, st) :: rest) n f = (k, st) :: updateStats rest n f from by
        simp [updateStats, hk]]
      by_cases hkn : k = name <;> simp [statsOf, hkn, ih]

theorem statsOf_updateStats_self (name : String) (f : Stats → Stats) (m : ParseState)
    (h : name ∈ m.map Prod.fst) :
    statsOf (updateStats m name f) name = f (statsOf m name) := by
  induction m with
  | nil => cases h
  | cons p rest ih =>
    obtain ⟨k, st⟩ := p
    by_cases hk : k = name
    · subst hk
      simp [updateStats, statsOf]
    · have h2 : name ∈ rest.map Prod.fst := by
        rcases (by simpa using h : name = k ∨ name ∈ rest.map Prod.fst) with h1 | h1
        · exact absurd h1.symm hk
        · exact h1
      simp [updateStats, statsOf, hk, Ne.symm hk, ih h2]

theorem statsOf_initState (cfg : Cfg) (name : String) :
    statsOf (initState cfg) name = [] := by
  induction cfg with
  | nil => rfl
  | cons p rest ih =>
    by_cases h : p.1 = name <;> simp [initState, statsOf, h, ih]

theorem statsOf_of_mem_nodup (n : String) (st : Stats) (m : ParseState)
    (hnd : (m.map Prod.fst).Nodup) (hmem : (n, st) ∈ m) :
    statsOf m n = st := by
  induction m with
  | nil => cases hmem
  | cons p rest ih =>
    obtain ⟨k, v⟩ := p
    rcases List.mem_cons.mp hmem with h | h
    · rw [Prod.mk.injEq] at h
      obtain ⟨rfl, rfl⟩ := h
      simp [statsOf]
    · have hk : k ≠ n := by
        intro hkn
        subst hkn
        exact (List.nodup_cons.mp hnd).1
          (List.mem_map.mpr ⟨(k, st), h, rfl⟩)
      simp [statsOf, hk, ih (List.nodup_cons.mp hnd).2 h]

theorem statsOf_scanAux (cfg : Cfg) (all : List String) (name : String)
    (rest : List String) (i : Nat) (m : ParseState)
    (hm : m.map Prod.fst = cfg.map Prod.fst) :
    statsOf (scanAux cfg all i rest m) name =
      List.foldl (fun st jk => occUpdate all jk.1 jk.2 st) (statsOf m name)
        (occsK cfg name i rest) := by
  induction rest generalizing i m with
  | nil => rfl
  | cons l rest ih =>
    have hkeys : (processLine cfg all i l m).map Prod.fst = cfg.map Prod.fst := by
      rw [map_fst_processLine, hm]
    cases hf : cfg.find? (fun p => strContains l p.1) with
    | none =>
      have hpl : processLine cfg all i l m = m := by simp [processLine, hf]
      rw [scanAux, occsK, hf]
      rw [hpl]
      exact ih (i + 1) m hm
    | some p =>
      obtain ⟨n, keys⟩ := p
      have hpl : processLine cfg all i l m = updateStats m n (occUpdate all i keys) := by
        simp [processLine, hf]
      by_cases hn : n = name
      · subst hn
        have hmem : n ∈ m.map Prod.fst := by
          rw [hm]
          exact List.mem_map.mpr ⟨(n, keys), List.mem_of_find?_eq_some hf, rfl⟩
        have hocc : occsK cfg n i (l :: rest) = (i, keys) :: occsK cfg n (i + 1) rest := by
          simp [occsK, hf]
        rw [scanAux, hocc, hpl]
        rw [ih (i + 1) _ (by rw [map_fst_updateStats, hm])]
        rw [statsOf_updateStats_self n (occUpdate all i keys) m hmem]
        rfl
      · have hocc : occsK cfg name i (l :: rest) = occsK cfg name (i + 1) rest := by
          simp [occsK, hf, hn]
        rw [scanAux, hocc, hpl]
        rw [ih (i + 1) _ (by rw [map_fst_updateStats, hm])]
        rw [statsOf_updateStats_ne m n name (occUpdate all i keys) hn]

theorem statsOf_parseRaw (cfg : Cfg) (lines : List String) (name : String) :
    statsOf (parseRaw cfg lines) name =
      List.foldl (fun st jk => occUpdate lines jk.1 jk.2 st) []
        (occsK cfg name 0 lines) := by
  rw [parseRaw,
    statsOf_scanAux cfg lines name lines 0 (initState cfg) (map_fst_initState cfg),
    statsOf_initState]

theorem occsK_eq_nil (cfg : Cfg) (name : String) (i : Nat) (rest : List String)
    (h : ∀ l ∈ rest, strContains l name = false) :
    occsK cfg name i rest = [] := by
  induction rest generalizing i with
  | nil => rfl
  | cons l rest ih =>
    have hl : strContains l name = false := h l (List.mem_cons_self l rest)
    have htl : ∀ x ∈ rest, strContains x name = false :=
      fun x hx => h x (List.mem_cons_of_mem l hx)
    cases hf : cfg.find? (fun p => strContains l p.1) with
    | none =>
      rw [occsK, hf]
      exact ih (i + 1) htl
    | some p =>
      obtain ⟨n, keys⟩ := p
      have hc : strContains l n = true := by simpa using List.find?_some hf
      have hne : n ≠ name := by
        intro e
        subst e
        rw [hl] at hc
        cases hc
      rw [occsK, hf]
      simpa [hne] using ih (i + 1) htl

theorem findStat_eq_none (key : String) (area : List String)
    (h : ∀ l ∈ area, strContains l key = true → firstDigitRun l.toList = none) :
    findStat key area = none := by
  induction area with
  | nil => rfl
  | cons l rest ih =>
    have htl : ∀ x ∈ rest, strContains x key = true → firstDigitRun x.toList = none :=
      fun x hx => h x (List.mem_cons_of_mem l hx)
    by_cases hc : strContains l key = true
    · have hd := h l (List.mem_cons_self l rest) hc
      have hd' : firstDigitRun l.data = none := hd
      simp [findStat, hc, hd', ih htl]
    · have hc' : strContains l key = false := by
        cases he : strContains l key
        · rfl
        · exact absurd he hc
      simp [findStat, hc', ih htl]

theorem foldl_occUpdate_const (all : List String) (L : List (Nat × List String)) (st : Stats)
    (h : ∀ jk ∈ L, dropUntilMarker (search_block all jk.1) = none) :
    List.foldl (fun st jk => occUpdate all jk.1 jk.2 st) st L = st := by
  induction L generalizing st with
  | nil => rfl
  | cons jk L ih =>
    have h0 : dropUntilMarker (search_block all jk.1) = none :=
      h jk (List.mem_cons_self jk L)
    rw [List.foldl_cons]
    rw [show occUpdate all jk.1 jk.2 st = st from by simp [occUpdate, h0]]
    exact ih st (fun x hx => h x (List.mem_cons_of_mem jk hx))

theorem dropUntilMarker_head (block : List String) (l : String) (rest : List String)
    (h : dropUntilMarker block = some (l :: rest)) :
    strContains l ed_marker = true := by
  induction block with
  | nil => cases h
  | cons b bs ih =>
    by_cases hb : strContains b ed_marker = true
    · rw [dropUntilMarker, if_pos hb] at h
      obtain ⟨rfl, rfl⟩ : b = l ∧ bs = rest := by simpa using h
      exact hb
    · rw [dropUntilMarker, if_neg hb] at h
      exact ih h

theorem not_mem_output_of_statsOf_nil (cfg : Cfg) (lines : List String) (name : String)
    (hnd : (cfg.map Prod.fst).Nodup)
    (hstats : statsOf (parseRaw cfg lines) name = []) :
    name ∉ (parse_emergency_data cfg lines).map Prod.fst := by
  intro hmem
  rcases List.mem_map.mp hmem with ⟨r, hr, hfst⟩
  obtain ⟨rn, rst⟩ := r
  rcases List.mem_filter.mp hr with ⟨hsub, hpred⟩
  have hne : rst ≠ [] := by simpa using hpred
  have hndm : ((parseRaw cfg lines).map Prod.fst).Nodup := by
    rw [map_fst_parseRaw]
    exact hnd
  have hst : statsOf (parseRaw cfg lines) rn = rst :=
    statsOf_of_mem_nodup rn rst (parseRaw cfg lines) hndm hsub
  rw [show rn = name from hfst, hstats] at hst
  exact hne hst.symm

theorem filter_initState (cfg : Cfg) :
    (initState cfg).filter (fun r => !r.2.isEmpty) = [] := by
  induction cfg with
  | nil => rfl
  | cons p rest ih => simpa [initState, List.filter_cons] using ih

/-! Claim theorems. -/

/-- C1: evaluation of the engine at a failing input.  The claim says a
field window is truncated at the next configured entity header, so no
field value is ever taken from a line at or after that header.  The code
never truncates: here the Royal University Hospital block spans the
Saskatoon City Hospital header at index 2, and the stat on index 3,
which lies after that header, is still recorded for Royal University
Hospital. -/
theorem bleedthrough_across_next_entity_header :
    parse_emergency_data target_sections
      ["Royal University Hospital", "Emergency Department",
       "Saskatoon City Hospital", "Waiting for Inpatient Bed 9"] =
    [("Royal University Hospital", [("Waiting for Inpatient Bed", "9")])] := by decide

/-- C2 counterexample: the first window line containing the label
"Patients in Department" holds no digit, yet the field is present,
because the extractor keeps searching later window lines; the Python
break sits under the successful regex match only. -/
theorem label_line_without_digits_not_skipped :
    firstDigitRun ("Patients in Department: none").toList = none ∧
    parse_emergency_data target_sections
      ["Royal University Hospital", "Emergency Department",
       "Patients in Department: none", "Patients in Department: 7"] =
    [("Royal University Hospital", [("Patients in Department", "7")])] := by decide

/-- C2 (amended): a field is absent exactly when NO window line carrying
the label holds a digit run; in that case the label contributes nothing
to the extraction, and the remaining configured fields are extracted
exactly as if the label had not been configured at all. -/
theorem field_absent_when_no_label_line_has_digits (key : String)
    (keys area : List String) (st : Stats)
    (h : ∀ l ∈ area, strContains l key = true → firstDigitRun l.toList = none) :
    findStat key area = none ∧
    extractOccurrence area keys st =
      extractOccurrence area (keys.filter (fun k => decide (k ≠ key))) st := by
  have hnone : findStat key area = none := findStat_eq_none key area h
  refine ⟨hnone, ?_⟩
  induction keys generalizing st with
  | nil => rfl
  | cons k ks ih =>
    by_cases hk : k = key
    · subst hk
      simp [extractOccurrence, List.filter_cons, hnone, ih]
    · simp [extractOccurrence, List.filter_cons, hk, ih]

/-- C2 witness: concrete instance of the amended claim. -/
theorem field_absent_when_no_label_line_has_digits_witness :
    findStat "Patients in Department"
      ["Emergency Department", "Patients in Department: none"] = none ∧
    extractOccurrence ["Emergency Department", "Patients in Department: none"]
      ["Patients in Department", "Waiting for Inpatient Bed"] [] =
    extractOccurrence ["Emergency Department", "Patients in Department: none"]
      (["Patients in Department", "Waiting for Inpatient Bed"].filter
        (fun k => decide (k ≠ "Patients in Department"))) [] :=
  field_absent_when_no_label_line_has_digits "Patients in Department"
    ["Patients in Department", "Waiting for Inpatient Bed"]
    ["Emergency Department", "Patients in Department: none"] [] (by decide)

/-- C3 counterexample: the first occurrence window of Royal University
Hospital yields the value 5, but the name occurs again on index 3 and
its window is reprocessed, overwriting the field with 7; the final
record is NOT determined by the first occurrence alone. -/
theorem later_occurrence_overwrites :
    occUpdate
      ["Royal University Hospital", "Emergency Department",
       "Patients in Department 5", "Royal University Hospital",
       "Emergency Department", "Patients in Department 7"]
      0 ["Patients in Department", "Waiting for Inpatient Bed"] [] =
      [("Patients in Department", "5")] ∧
    parse_emergency_data target_sections
      ["Royal University Hospital", "Emergency Department",
       "Patients in Department 5", "Royal University Hospital",
       "Emergency Department", "Patients in Department 7"] =
    [("Royal University Hospital", [("Patients in Department", "7")])] := by decide

/-- C3 (amended): the stats mapping of an entity is the left fold of the
per-occurrence extraction over EVERY line index on which the entity is
the first configured name to match, in document order; values found at a
later occurrence overwrite those recorded at an earlier one. -/
theorem record_is_fold_over_all_occurrences (cfg : Cfg) (lines : List String)
    (name : String) :
    statsOf (parseRaw cfg lines) name =
      List.foldl (fun st jk => occUpdate lines jk.1 jk.2 st) []
        (occsK cfg name 0 lines) :=
  statsOf_parseRaw cfg lines name

/-- C4 counterexample: on the empty line sequence the engine silently
returns the empty ResultSet; no hard failure is raised, since the code
wraps parsing in a blanket handler returning an empty list. -/
theorem empty_input_returns_empty_resultset :
    parse_emergency_data target_sections [] = [] := by decide

/-- C4 (amended): for every configuration, an absent or empty line
sequence yields the empty ResultSet as an ordinary value, matching the
degraded-data path rather than a loud failure. -/
theorem parse_empty_lines_eq_nil (cfg : Cfg) :
    parse_emergency_data cfg [] = [] := by
  show (scanAux cfg [] 0 [] (initState cfg)).filter (fun r => !r.2.isEmpty) = []
  rw [scanAux]
  exact filter_initState cfg

/-- C5: in gated mode, an entity none of whose occurrence blocks holds a
line containing the marker "Emergency Department" yields zero fields and
is omitted from the ResultSet, whatever other label-like or numeric
lines its spans hold. -/
theorem gated_no_marker_yields_no_record (cfg : Cfg) (lines : List String)
    (name : String)
    (hnd : (cfg.map Prod.fst).Nodup)
    (h : ∀ jk ∈ occsK cfg name 0 lines,
      dropUntilMarker (search_block lines jk.1) = none) :
    name ∉ (parse_emergency_data cfg lines).map Prod.fst :=
  not_mem_output_of_statsOf_nil cfg lines name hnd
    (by rw [statsOf_parseRaw]; exact foldl_occUpdate_const lines _ [] h)

/-- C5 witness: a hospital header with no marker anywhere in the block is
dropped from the output. -/
theorem gated_no_marker_yields_no_record_witness :
    "Royal University Hospital" ∉
      (parse_emergency_data target_sections
        ["Royal University Hospital", "Patients in Department 9"]).map Prod.fst :=
  gated_no_marker_yields_no_record target_sections
    ["Royal University Hospital", "Patients in Department 9"]
    "Royal University Hospital" (by decide) (by decide)

/-- C6: the record order of the ResultSet is a subsequence of the
configured declaration order, so output order always follows the
configuration and never the document. -/
theorem output_order_sublist_of_config (cfg : Cfg) (lines : List String) :
    ((parse_emergency_data cfg lines).map Prod.fst).Sublist (cfg.map Prod.fst) := by
  have h1 : (parse_emergency_data cfg lines).Sublist (parseRaw cfg lines) :=
    List.filter_sublist _
  have h2 := h1.map Prod.fst
  rwa [map_fst_parseRaw] at h2

/-- C7: an entity whose name occurs on no line yields no record, and no
record of the ResultSet carries an empty stats mapping. -/
theorem absent_entity_and_empty_records_dropped (cfg : Cfg) (lines : List String)
    (name : String)
    (hnd : (cfg.map Prod.fst).Nodup)
    (h : ∀ l ∈ lines, strContains l name = false) :
    name ∉ (parse_emergency_data cfg lines).map Prod.fst ∧
    [] ∉ (parse_emergency_data cfg lines).map Prod.snd := by
  constructor
  · apply not_mem_output_of_statsOf_nil cfg lines name hnd
    rw [statsOf_parseRaw, occsK_eq_nil cfg name 0 lines h]
    rfl
  · intro hmem
    rcases List.mem_map.mp hmem with ⟨r, hr, hsnd⟩
    have hpred := (List.mem_filter.mp hr).2
    rw [hsnd] at hpred
    cases hpred

/-- C7 witness: concrete run in which no line mentions Royal University
Hospital. -/
theorem absent_entity_and_empty_records_dropped_witness :
    "Royal University Hospital" ∉
      (parse_emergency_data target_sections ["nothing to see"]).map Prod.fst ∧
    [] ∉ (parse_emergency_data target_sections ["nothing to see"]).map Prod.snd :=
  absent_entity_and_empty_records_dropped target_sections ["nothing to see"]
    "Royal University Hospital" (by decide) (by decide)

/-- C8: the engine is a pure function of the configuration and the line
sequence; two runs on identical inputs return identical ResultSets, with
no hidden state across invocations. -/
theorem parse_deterministic (cfg : Cfg) (lines1 lines2 : List String)
    (h : lines1 = lines2) :
    parse_emergency_data cfg lines1 = parse_emergency_data cfg lines2 := by rw [h]

/-- C8 witness: two identical concrete runs. -/
theorem parse_deterministic_witness :
    parse_emergency_data target_sections ["Royal University Hospital"] =
    parse_emergency_data target_sections ["Royal University Hospital"] :=
  parse_deterministic target_sections ["Royal University Hospital"]
    ["Royal University Hospital"] rfl

/-- C9: the candidate block opened at a header on index i holds at most
19 lines, and its j-th line is the line of the document at absolute
index i + 1 + j: the header line itself is excluded and nothing beyond
index i + 19 is ever part of the block. -/
theorem search_block_bounds (lines : List String) (i j : Nat) (h : j < 19) :
    (search_block lines i).length ≤ 19 ∧
    (search_block lines i)[j]? = lines[i + 1 + j]? := by
  constructor
  · rw [search_block]
    exact List.length_take_le 19 _
  · rw [search_block, List.getElem?_take_of_lt h, List.getElem?_drop]

/-- C9 witness: block of a three-line document at header index 0. -/
theorem search_block_bounds_witness :
    (search_block ["a", "b", "c"] 0).length ≤ 19 ∧
    (search_block ["a", "b", "c"] 0)[1]? = ["a", "b", "c"][0 + 1 + 1]? :=
  search_block_bounds ["a", "b", "c"] 0 1 (by decide)

/-- C10: the line on which the gate marker is found heads the search
area itself: when that very line also carries a field label together
with a digit run, the field value is extracted from it. -/
theorem marker_line_included_in_search_area (block rest : List String)
    (l key v : String)
    (h : dropUntilMarker block = some (l :: rest))
    (hk : strContains l key = true)
    (hd : firstDigitRun l.toList = some v) :
    strContains l ed_marker = true ∧ findStat key (l :: rest) = some v := by
  refine ⟨dropUntilMarker_head block l rest h, ?_⟩
  have hd' : firstDigitRun l.data = some v := hd
  simp [findStat, hk, hd']

/-- C10 witness: marker, label and digits on one and the same line. -/
theorem marker_line_included_in_search_area_witness :
    strContains "Emergency Department Patients in Department 4" ed_marker = true ∧
    findStat "Patients in Department"
      ["Emergency Department Patients in Department 4"] = some "4" :=
  marker_line_included_in_search_area
    ["Emergency Department Patients in Department 4"] []
    "Emergency Department Patients in Department 4" "Patients in Department" "4"
    (by decide) (by decide) (by decide)
